import Mathlib

/-!
# Verification of the bencode decoder in `src/bencode.rs`

A shallow embedding of the recursive-descent bencode decoder from
`rustorrent`'s `src/bencode.rs`, together with proofs about its behavior.

Modelling conventions:
* A byte stream (`Iterator<Item=u8>` behind a `Peekable`) is a `List Nat`;
  peeking is `List.head?`, consuming one byte is taking the tail.
* Each decoding function returns its result together with the remaining
  bytes of the stream (the Rust functions mutate the shared iterator).
* The Rust functions return `Result<BenObject, String>`; errors are
  identified here by a `DecodeError` constructor per distinct message
  string produced by the source.
* A `panic!` / failed `assert_eq!` / `Option::unwrap` on `None` is the
  distinguished outcome `DRes.crash`.
* `u64` arithmetic wraps: accumulation is taken modulo `2 ^ 64`, and the
  `as i64` cast and `i64` multiplication are modelled by two's-complement
  wrapping (`u64_as_i64`, `i64wrap`).
* The mutually recursive functions take a fuel parameter; `DRes.oom`
  marks fuel exhaustion, an outcome that never arises once the fuel is at
  least linear in the input length (proved below), so the entry point
  `decode` runs with fuel `3 * length + 1`.
-/

namespace Bencode

/-- 2 ^ 64, the modulus of Rust `u64` arithmetic. -/
def U64 : Nat := 18446744073709551616

/-- 2 ^ 63, the two's-complement sign boundary of `i64`. -/
def I64HALF : Nat := 9223372036854775808

/-- The `u64 as i64` cast: two's-complement reinterpretation. -/
def u64_as_i64 (m : Nat) : Int :=
  if m < I64HALF then (m : Int) else (m : Int) - (U64 : Int)

/-- Wrapping of a mathematical integer into the `i64` range, the result of
overflowing `i64` multiplication in the source. -/
def i64wrap (y : Int) : Int :=
  (y + (I64HALF : Int)) % (U64 : Int) - (I64HALF : Int)

/-- `(*c as char).is_digit(10)` on a byte: ASCII `'0'..='9'`. -/
def isDigit (c : Nat) : Bool := 48 ≤ c && c ≤ 57

/-- The in-memory document tree `BenObject` of `src/bencode.rs`.
`ByteString` is a raw byte sequence (`List Nat`); the `HashMap` of the
`D` variant is modelled as an association list without duplicate keys
(insertion is `hmInsert`, which overwrites the entry of an existing key,
matching `HashMap::insert` since `ByteString` equality is bytewise). -/
inductive BenObject : Type where
  | I : Int → BenObject
  | S : List Nat → BenObject
  | L : List BenObject → BenObject
  | D : List (List Nat × BenObject) → BenObject

/-- One constructor per distinct error message `String` returned by the
source decoder. -/
inductive DecodeError : Type where
  /-- "BenObject not found" -/
  | objectNotFound : DecodeError
  /-- "parsing dict failed: expected e" -/
  | malformedDict : DecodeError
  /-- "parsing integer failed: expected e" -/
  | malformedInteger : DecodeError
  /-- "parsing list failed: expected e" -/
  | malformedList : DecodeError
  /-- "parsing string failed: expected colon" -/
  | malformedString : DecodeError
  /-- "parsing string failed: length mismatches" -/
  | lengthMismatch : DecodeError
deriving DecidableEq

/-- Outcome of a decoding function: success with the remaining stream,
an error message, a panic, or fuel exhaustion (a modelling artifact). -/
inductive DRes : Type where
  | ok : BenObject → List Nat → DRes
  | err : DecodeError → DRes
  | crash : DRes
  | oom : DRes

/-- `HashMap::insert` on the association-list model: overwrite the entry
of an existing key, else append a new entry. -/
def hmInsert (key : List Nat) (v : BenObject) :
    List (List Nat × BenObject) → List (List Nat × BenObject)
  | [] => [(key, v)]
  | (k, w) :: rest =>
    if k = key then (key, v) :: rest else (k, w) :: hmInsert key v rest

/-- `skip_if_match`: consume the next byte iff it equals `ch`; returns
whether it matched together with the rest of the stream. -/
def skip_if_match (ch : Nat) : List Nat → Bool × List Nat
  | [] => (false, [])
  | c :: rest => if c = ch then (true, rest) else (false, c :: rest)

/-- `decode_uint`: read bytes while the lookahead is an ASCII digit,
accumulating `num = num * 10 + digit` in wrapping `u64` arithmetic.
`num` is the accumulator (`0` at the call sites in the source). -/
def decode_uint (num : Nat) : List Nat → Nat × List Nat
  | [] => (num, [])
  | c :: rest =>
    if isDigit c then decode_uint ((num * 10 + (c - 48)) % U64) rest
    else (num, c :: rest)

/-- `decode_benstring`: decimal length prefix, `':'`, then that many raw
bytes. -/
def decode_benstring (input : List Nat) : DRes :=
  let p := decode_uint 0 input
  match skip_if_match 58 p.2 with
  | (true, r) =>
    let buf := r.take p.1
    if buf.length = p.1 then DRes.ok (BenObject.S buf) (r.drop p.1)
    else DRes.err DecodeError.lengthMismatch
  | (false, _) => DRes.err DecodeError.malformedString

/-- `decode_benint`: `assert_eq!` on the `'i'` sentinel (a crash if the
stream is empty or the byte differs), optional `'-'`, digit accumulation,
sign application in wrapping `i64` arithmetic, then the `'e'` terminator. -/
def decode_benint (input : List Nat) : DRes :=
  match input with
  | [] => DRes.crash
  | c :: rest =>
    if c = 105 then
      let s := skip_if_match 45 rest
      let sign : Int := if s.1 then -1 else 1
      let p := decode_uint 0 s.2
      let val : Int := i64wrap (sign * u64_as_i64 p.1)
      match skip_if_match 101 p.2 with
      | (true, r) => DRes.ok (BenObject.I val) r
      | (false, _) => DRes.err DecodeError.malformedInteger
    else DRes.crash

mutual

/-- `decode_benobject`: dispatch on the peeked byte — `'d'` dict, `'i'`
integer, `'l'` list, anything else the string rule; an exhausted stream
is the "BenObject not found" error. -/
def decode_benobject : Nat → List Nat → DRes
  | 0, _ => DRes.oom
  | fuel + 1, input =>
    match input with
    | [] => DRes.err DecodeError.objectNotFound
    | c :: rest =>
      if c = 100 then decode_bendict fuel (c :: rest)
      else if c = 105 then decode_benint (c :: rest)
      else if c = 108 then decode_benlist fuel (c :: rest)
      else decode_benstring (c :: rest)

/-- `decode_bendict`: `assert_eq!` on the `'d'` sentinel, then the
key/value loop. -/
def decode_bendict : Nat → List Nat → DRes
  | 0, _ => DRes.oom
  | fuel + 1, input =>
    match input with
    | [] => DRes.crash
    | c :: rest =>
      if c = 100 then dict_loop fuel [] rest else DRes.crash

/-- The `while bytes.peek() != Some(&('e' as u8))` loop of
`decode_bendict`, followed by the terminator check: decode a key with the
string rule (a non-`S` key object would be the `panic!`, modelled as
`crash`), decode a value with the dispatch rule, insert, repeat. -/
def dict_loop : Nat → List (List Nat × BenObject) → List Nat → DRes
  | 0, _, _ => DRes.oom
  | fuel + 1, hash, input =>
    if input.head? = some 101 then
      match skip_if_match 101 input with
      | (true, r) => DRes.ok (BenObject.D hash) r
      | (false, _) => DRes.err DecodeError.malformedDict
    else
      match decode_benstring input with
      | DRes.ok keyObj r1 =>
        match keyObj with
        | BenObject.S key =>
          match decode_benobject fuel r1 with
          | DRes.ok v r2 => dict_loop fuel (hmInsert key v hash) r2
          | other => other
        | _ => DRes.crash
      | other => other

/-- `decode_benlist`: `assert_eq!` on the `'l'` sentinel, then the
element loop. -/
def decode_benlist : Nat → List Nat → DRes
  | 0, _ => DRes.oom
  | fuel + 1, input =>
    match input with
    | [] => DRes.crash
    | c :: rest =>
      if c = 108 then list_loop fuel [] rest else DRes.crash

/-- The `while bytes.peek() != Some(&('e' as u8))` loop of
`decode_benlist`, followed by the terminator check: decode an element
with the dispatch rule, push it, repeat. -/
def list_loop : Nat → List BenObject → List Nat → DRes
  | 0, _, _ => DRes.oom
  | fuel + 1, vec, input =>
    if input.head? = some 101 then
      match skip_if_match 101 input with
      | (true, r) => DRes.ok (BenObject.L vec) r
      | (false, _) => DRes.err DecodeError.malformedList
    else
      match decode_benobject fuel input with
      | DRes.ok v r => list_loop fuel (vec ++ [v]) r
      | other => other

end

/-- The public entry point `BenObject::decode`: run the dispatcher with
enough fuel (proved sufficient below) for the whole input. -/
def decode (bs : List Nat) : DRes :=
  decode_benobject (3 * bs.length + 1) bs

/-- Sanity predicate on decoder results: not a panic, and not one of the
two container-terminator errors (whose branches are unreachable). -/
def GoodRes (r : DRes) : Prop :=
  r ≠ DRes.crash ∧ r ≠ DRes.err DecodeError.malformedList ∧
    r ≠ DRes.err DecodeError.malformedDict

/-- Fuel-indexed helper computing the most-significant-first decimal
digit list of its second argument; fuel equal to the number itself
always suffices. -/
def natDigsF : Nat → Nat → List Nat
  | 0, n => [n % 10]
  | f + 1, n => if n < 10 then [n] else natDigsF f (n / 10) ++ [n % 10]

/-- Most-significant-first decimal digits of `n`, each `< 10`. -/
def natDigs (n : Nat) : List Nat := natDigsF n n

/-- ASCII decimal rendering of a natural number (test-harness side input
construction, as in §8 of the specification). -/
def renderNat (n : Nat) : List Nat := (natDigs n).map (fun d => d + 48)

/-- ASCII bytes of the bencode form "i{n}e" of an integer, with a
leading minus sign for negative `n`. -/
def renderInt (n : Int) : List Nat :=
  105 ::
    ((if n < 0 then 45 :: renderNat n.natAbs else renderNat n.natAbs) ++ [101])

/-! ## Decimal digit lemmas -/

theorem mod_mul_add_mod (a b M : Nat) : (a % M * 10 + b) % M = (a * 10 + b) % M := by
  conv_lhs => rw [Nat.add_mod, Nat.mod_mul_mod, ← Nat.add_mod]

theorem natDigsF_lt_ten : ∀ f n d, d ∈ natDigsF f n → d < 10 := by
  intro f
  induction f with
  | zero =>
    intro n d hd
    simp only [natDigsF, List.mem_singleton] at hd
    omega
  | succ f ih =>
    intro n d hd
    simp only [natDigsF] at hd
    by_cases h : n < 10
    · rw [if_pos h] at hd
      simp only [List.mem_singleton] at hd
      omega
    · rw [if_neg h] at hd
      rcases List.mem_append.1 hd with h1 | h1
      · exact ih _ _ h1
      · simp only [List.mem_singleton] at h1
        omega

theorem natDigsF_ne_nil : ∀ f n, natDigsF f n ≠ [] := by
  intro f n
  cases f with
  | zero => simp [natDigsF]
  | succ f =>
    simp only [natDigsF]
    by_cases h : n < 10
    · rw [if_pos h]; simp
    · rw [if_neg h]; simp

theorem decode_uint_digits :
    ∀ (ds rest : List Nat) (acc : Nat), (∀ d ∈ ds, d < 10) →
      (∀ c, rest.head? = some c → isDigit c = false) →
      decode_uint acc (ds.map (fun d => d + 48) ++ rest) =
        (ds.foldl (fun a d => (a * 10 + d) % U64) acc, rest) := by
  intro ds
  induction ds with
  | nil =>
    intro rest acc _ hrest
    cases rest with
    | nil => rfl
    | cons c r =>
      simp only [List.map_nil, List.nil_append, decode_uint, List.foldl_nil]
      rw [hrest c rfl]
      simp
  | cons d ds ih =>
    intro rest acc hds hrest
    have hd : d < 10 := hds d (List.mem_cons_self d ds)
    have hdig : isDigit (d + 48) = true := by
      simp only [isDigit, Bool.and_eq_true, decide_eq_true_eq]
      omega
    simp only [List.map_cons, List.cons_append, decode_uint, hdig, if_pos]
    have hsub : d + 48 - 48 = d := by omega
    rw [hsub, List.append_eq,
      ih rest _ (fun x hx => hds x (List.mem_cons_of_mem d hx)) hrest]
    rfl

theorem natDigsF_foldl :
    ∀ (f n acc : Nat), n ≤ f →
      (natDigsF f n).foldl (fun a d => (a * 10 + d) % U64) acc =
        (acc * 10 ^ (natDigsF f n).length + n) % U64 := by
  intro f
  induction f with
  | zero =>
    intro n acc hn
    have h0 : n = 0 := Nat.le_zero.1 hn
    subst h0
    simp [natDigsF]
  | succ f ih =>
    intro n acc hn
    by_cases h : n < 10
    · simp [natDigsF, if_pos h]
    · simp only [natDigsF, if_neg h]
      have hle : n / 10 ≤ f := by
        have := Nat.div_lt_self (by omega : 0 < n) (by omega : 1 < 10)
        omega
      rw [List.foldl_append, ih _ acc hle]
      simp only [List.foldl_cons, List.foldl_nil, List.length_append,
        List.length_singleton]
      rw [mod_mul_add_mod]
      congr 1
      have hdm : n / 10 * 10 + n % 10 = n := by omega
      calc (acc * 10 ^ (natDigsF f (n / 10)).length + n / 10) * 10 + n % 10 =
          acc * 10 ^ ((natDigsF f (n / 10)).length + 1) +
            (n / 10 * 10 + n % 10) := by rw [pow_succ]; ring
        _ = acc * 10 ^ ((natDigsF f (n / 10)).length + 1) + n := by rw [hdm]

theorem decode_uint_render (n : Nat) (rest : List Nat)
    (hrest : ∀ c, rest.head? = some c → isDigit c = false) :
    decode_uint 0 (renderNat n ++ rest) = (n % U64, rest) := by
  rw [renderNat, natDigs,
    decode_uint_digits _ _ _ (fun d hd => natDigsF_lt_ten n n d hd) hrest,
    natDigsF_foldl n n 0 le_rfl]
  simp

theorem renderNat_cons (n : Nat) :
    ∃ c tl, renderNat n = c :: tl ∧ 48 ≤ c ∧ c ≤ 57 := by
  rcases List.exists_cons_of_ne_nil (natDigsF_ne_nil n n) with ⟨d, ds, hds⟩
  refine ⟨d + 48, ds.map (fun d => d + 48), ?_, by omega, ?_⟩
  · rw [renderNat, natDigs, hds, List.map_cons]
  · have := natDigsF_lt_ten n n d (by rw [hds]; exact List.mem_cons_self d ds)
    omega

/-! ## Dispatch and string-rule lemmas -/

theorem decode_benobject_string (c : Nat) (rest : List Nat) (f : Nat)
    (h100 : c ≠ 100) (h105 : c ≠ 105) (h108 : c ≠ 108) :
    decode_benobject (f + 1) (c :: rest) = decode_benstring (c :: rest) := by
  simp only [decode_benobject, if_neg h100, if_neg h105, if_neg h108]

theorem decode_benstring_render (n : Nat) (b : List Nat) (hn : n < U64) :
    decode_benstring (renderNat n ++ 58 :: b) =
      (if (b.take n).length = n then DRes.ok (BenObject.S (b.take n)) (b.drop n)
       else DRes.err DecodeError.lengthMismatch) := by
  have h1 : decode_uint 0 (renderNat n ++ 58 :: b) = (n, 58 :: b) := by
    rw [decode_uint_render n (58 :: b) (by intro x hx; cases hx; rfl)]
    rw [Nat.mod_eq_of_lt hn]
  simp only [decode_benstring, h1, skip_if_match]
  norm_num

/-- Claim C5: a length-prefixed string of any byte content round-trips. -/
theorem claim5_string_roundtrip (b : List Nat) (hb : b.length < U64) :
    decode (renderNat b.length ++ 58 :: b) = DRes.ok (BenObject.S b) [] := by
  obtain ⟨c, tl, hr, hc1, hc2⟩ := renderNat_cons b.length
  rw [decode, hr, List.cons_append,
    decode_benobject_string c _ _ (by omega) (by omega) (by omega),
    ← List.cons_append, ← hr, decode_benstring_render _ _ hb]
  simp [List.take_length, List.drop_length]

theorem claim5_witness :
    ([0, 101, 255].length < U64) ∧
      decode (renderNat [0, 101, 255].length ++ 58 :: [0, 101, 255]) =
        DRes.ok (BenObject.S [0, 101, 255]) [] :=
  ⟨by decide, claim5_string_roundtrip [0, 101, 255] (by decide)⟩

/-- Claim C6: a declared length longer than the remaining input is the
length-mismatch error. -/
theorem claim6_truncation (n : Nat) (b : List Nat) (h1 : b.length < n)
    (h2 : n < U64) :
    decode (renderNat n ++ 58 :: b) = DRes.err DecodeError.lengthMismatch := by
  obtain ⟨c, tl, hr, hc1, hc2⟩ := renderNat_cons n
  rw [decode, hr, List.cons_append,
    decode_benobject_string c _ _ (by omega) (by omega) (by omega),
    ← List.cons_append, ← hr, decode_benstring_render _ _ h2]
  rw [List.take_of_length_le (le_of_lt h1), if_neg (by omega)]

theorem claim6_witness :
    ([97, 98].length < 5 ∧ (5 : Nat) < U64) ∧
      renderNat 5 ++ 58 :: [97, 98] = [53, 58, 97, 98] ∧
      decode (renderNat 5 ++ 58 :: [97, 98]) =
        DRes.err DecodeError.lengthMismatch :=
  ⟨⟨by decide, by decide⟩, rfl, claim6_truncation 5 [97, 98] (by decide) (by decide)⟩

/-- Claim C1 (corrected): a first byte outside the dispatch set that is
not `':'` always errors — with the string rule's "expected ':'" error,
not a dedicated unexpected-byte error — and empty input is the
object-not-found error. -/
theorem claim1_amended (c : Nat) (rest : List Nat) (h1 : c ≠ 100)
    (h2 : c ≠ 105) (h3 : c ≠ 108) (h4 : isDigit c = false) (h5 : c ≠ 58) :
    decode (c :: rest) = DRes.err DecodeError.malformedString ∧
      decode [] = DRes.err DecodeError.objectNotFound := by
  refine ⟨?_, rfl⟩
  rw [decode, decode_benobject_string c rest _ h1 h2 h3]
  simp only [decode_benstring, decode_uint, h4, Bool.false_eq_true, if_false,
    skip_if_match, if_neg h5]

/-- Claim C1 is false as stated: `':'` is not `d`, `i`, `l`, or a digit,
yet the input consisting of the single byte `':'` decodes successfully
(the string rule reads a zero-digit length prefix and an empty body). -/
theorem claim1_counterexample :
    ((58 : Nat) ≠ 100 ∧ (58 : Nat) ≠ 105 ∧ (58 : Nat) ≠ 108 ∧
      isDigit 58 = false) ∧
      decode [58] = DRes.ok (BenObject.S []) [] :=
  ⟨⟨by decide, by decide, by decide, rfl⟩, rfl⟩

theorem claim1_witness :
    ((120 : Nat) ≠ 100 ∧ (120 : Nat) ≠ 105 ∧ (120 : Nat) ≠ 108 ∧
      isDigit 120 = false ∧ (120 : Nat) ≠ 58) ∧
      decode [120] = DRes.err DecodeError.malformedString ∧
      decode [] = DRes.err DecodeError.objectNotFound :=
  ⟨⟨by decide, by decide, by decide, rfl, by decide⟩,
    claim1_amended 120 [] (by decide) (by decide) (by decide) rfl (by decide)⟩

/-- Claim C3 is false as stated: "l1:a" does fail, but with the
object-not-found error from the recursive call on the exhausted stream,
not with the list-terminator error. -/
theorem claim3_counterexample :
    decode [108, 49, 58, 97] = DRes.err DecodeError.objectNotFound ∧
      decode [108, 49, 58, 97] ≠ DRes.err DecodeError.malformedList :=
  ⟨rfl, fun h => DecodeError.noConfusion (DRes.err.inj h)⟩

/-- Claim C3 (corrected): "l1:a" fails with the object-not-found error
while "l1:ae" decodes to the one-element list. -/
theorem claim3_amended :
    decode [108, 49, 58, 97] = DRes.err DecodeError.objectNotFound ∧
      decode [108, 49, 58, 97, 101] =
        DRes.ok (BenObject.L [BenObject.S [97]]) [] :=
  ⟨rfl, rfl⟩

/-- Claim C7: zero digits between the sentinel and terminator decode as
the integer `0`, both without and with the minus marker. -/
theorem claim7_empty_digits :
    decode [105, 101] = DRes.ok (BenObject.I 0) [] ∧
      decode [105, 45, 101] = DRes.ok (BenObject.I 0) [] :=
  ⟨rfl, rfl⟩

/-- Claim C8: for a duplicate dictionary key the last value wins:
"d1:ai1e1:ai2ee" decodes to the single-entry dictionary a ↦ 2. -/
theorem claim8_duplicate_keys :
    decode [100, 49, 58, 97, 105, 49, 101, 49, 58, 97, 105, 50, 101, 101] =
      DRes.ok (BenObject.D [([97], BenObject.I 2)]) [] :=
  rfl

/-! ## Integer rule lemmas -/

theorem skip_if_match_cons_self (ch : Nat) (r : List Nat) :
    skip_if_match ch (ch :: r) = (true, r) := by
  simp [skip_if_match]

theorem skip_if_match_cons_ne (ch c : Nat) (r : List Nat) (h : c ≠ ch) :
    skip_if_match ch (c :: r) = (false, c :: r) := by
  simp [skip_if_match, h]

theorem decode_uint_render_self (m : Nat) (hm : m < U64) :
    decode_uint 0 (renderNat m ++ [101]) = (m, [101]) := by
  rw [decode_uint_render _ _ (by intro x hx; cases hx; rfl),
    Nat.mod_eq_of_lt hm]

theorem decode_benint_eval_pos (m : Nat) (hm : m < U64) :
    decode_benint (105 :: (renderNat m ++ [101])) =
      DRes.ok (BenObject.I (i64wrap (1 * u64_as_i64 m))) [] := by
  obtain ⟨c, tl, hr, hc1, hc2⟩ := renderNat_cons m
  have hskip : skip_if_match 45 (renderNat m ++ [101]) =
      (false, renderNat m ++ [101]) := by
    rw [hr, List.cons_append, skip_if_match_cons_ne _ _ _ (by omega),
      ← List.cons_append]
  simp only [decode_benint, hskip, decode_uint_render_self m hm,
    skip_if_match_cons_self]
  norm_num

theorem decode_benint_eval_neg (m : Nat) (hm : m < U64) :
    decode_benint (105 :: 45 :: (renderNat m ++ [101])) =
      DRes.ok (BenObject.I (i64wrap (-1 * u64_as_i64 m))) [] := by
  simp only [decode_benint, skip_if_match_cons_self,
    decode_uint_render_self m hm]
  norm_num

theorem i64wrap_of_range (y : Int) (hy1 : -(I64HALF : Int) ≤ y)
    (hy2 : y < (I64HALF : Int)) : i64wrap y = y := by
  simp only [i64wrap, I64HALF, U64] at *
  omega

theorem i64_value_pos (n : Int) (h0 : 0 ≤ n) (h2 : n < (I64HALF : Int)) :
    i64wrap (1 * u64_as_i64 n.natAbs) = n := by
  have habs : (n.natAbs : Int) = n := by omega
  have hm : n.natAbs < I64HALF := by
    simp only [I64HALF] at *
    omega
  rw [u64_as_i64, if_pos hm, habs, one_mul]
  exact i64wrap_of_range n (by simp only [I64HALF] at *; omega) h2

theorem i64_value_neg (n : Int) (h1 : -(I64HALF : Int) ≤ n) (hneg : n < 0) :
    i64wrap (-1 * u64_as_i64 n.natAbs) = n := by
  have habs : (n.natAbs : Int) = -n := by omega
  by_cases hm : n.natAbs < I64HALF
  · rw [u64_as_i64, if_pos hm, habs]
    have h : (-1 : Int) * -n = n := by ring
    rw [h]
    exact i64wrap_of_range n h1
      (by simp only [I64HALF] at *; omega)
  · have hm2 : (n.natAbs : Int) = (I64HALF : Int) := by
      simp only [I64HALF] at *
      omega
    have hn : n = -(I64HALF : Int) := by omega
    rw [u64_as_i64, if_neg hm, hm2, hn]
    simp only [i64wrap, I64HALF, U64]
    decide

/-- Claim C4: every `i64`-representable integer round-trips through
"i{n}e", including both extremes (`u64` accumulation, the `as i64`
cast and the sign multiplication all modelled with two's-complement
wrapping). -/
theorem claim4_integer_roundtrip (n : Int) (h1 : -(I64HALF : Int) ≤ n)
    (h2 : n < (I64HALF : Int)) :
    decode (renderInt n) = DRes.ok (BenObject.I n) [] := by
  have hmU : n.natAbs < U64 := by
    simp only [I64HALF, U64] at *
    omega
  have hd : decode (renderInt n) = decode_benint (renderInt n) := by
    rw [decode, renderInt]
    simp only [decode_benobject]
    norm_num
  rw [hd, renderInt]
  by_cases hneg : n < 0
  · rw [if_pos hneg, List.cons_append, decode_benint_eval_neg _ hmU,
      i64_value_neg n h1 hneg]
  · rw [if_neg hneg, decode_benint_eval_pos _ hmU,
      i64_value_pos n (by omega) h2]

theorem claim4_witness :
    (-(I64HALF : Int) ≤ -(I64HALF : Int) ∧ -(I64HALF : Int) < (I64HALF : Int) ∧
      ((I64HALF : Int) - 1) < (I64HALF : Int)) ∧
      decode (renderInt (-(I64HALF : Int))) =
        DRes.ok (BenObject.I (-(I64HALF : Int))) [] ∧
      decode (renderInt ((I64HALF : Int) - 1)) =
        DRes.ok (BenObject.I ((I64HALF : Int) - 1)) [] :=
  ⟨⟨le_rfl, by simp only [I64HALF]; decide, by simp only [I64HALF]; decide⟩,
    claim4_integer_roundtrip _ le_rfl (by simp only [I64HALF]; decide),
    claim4_integer_roundtrip _ (by simp only [I64HALF]; decide)
      (by simp only [I64HALF]; decide)⟩

/-! ## Case-analysis lemmas for the non-recursive rules -/

theorem good_ok (o : BenObject) (r : List Nat) : GoodRes (DRes.ok o r) :=
  ⟨fun h => DRes.noConfusion h, fun h => DRes.noConfusion h,
    fun h => DRes.noConfusion h⟩

theorem good_err (e : DecodeError) (h1 : e ≠ DecodeError.malformedList)
    (h2 : e ≠ DecodeError.malformedDict) : GoodRes (DRes.err e) :=
  ⟨fun h => DRes.noConfusion h, fun h => h1 (DRes.err.inj h),
    fun h => h2 (DRes.err.inj h)⟩

theorem good_oom : GoodRes DRes.oom :=
  ⟨fun h => DRes.noConfusion h, fun h => DRes.noConfusion h,
    fun h => DRes.noConfusion h⟩

theorem decode_uint_length :
    ∀ (input : List Nat) (acc : Nat),
      (decode_uint acc input).2.length ≤ input.length := by
  intro input
  induction input with
  | nil => intro acc; simp [decode_uint]
  | cons c rest ih =>
    intro acc
    simp only [decode_uint]
    by_cases h : isDigit c = true
    · rw [if_pos h]
      calc (decode_uint ((acc * 10 + (c - 48)) % U64) rest).2.length ≤
            rest.length := ih _
        _ ≤ (c :: rest).length := by simp
    · rw [if_neg h]

theorem skip_if_match_length (ch : Nat) (input : List Nat) :
    (skip_if_match ch input).2.length ≤ input.length := by
  cases input with
  | nil => simp [skip_if_match]
  | cons c rest =>
    simp only [skip_if_match]
    split <;> simp

theorem skip_if_match_true {ch : Nat} {input r : List Nat}
    (h : skip_if_match ch input = (true, r)) : input = ch :: r := by
  cases input with
  | nil => simp [skip_if_match] at h
  | cons c rest =>
    simp only [skip_if_match] at h
    split at h
    · next hc =>
      injection h with h1 h2
      rw [hc, h2]
    · next hc => injection h with h1 h2; exact absurd h1 (by simp)

theorem decode_benstring_cases (input : List Nat) :
    (∃ s r, decode_benstring input = DRes.ok (BenObject.S s) r ∧
      r.length < input.length) ∨
    decode_benstring input = DRes.err DecodeError.malformedString ∨
    decode_benstring input = DRes.err DecodeError.lengthMismatch := by
  have hu := decode_uint_length input 0
  simp only [decode_benstring]
  split
  · next r heq =>
    have hin := skip_if_match_true heq
    have hlen : r.length < input.length := by
      have := congrArg List.length hin
      simp only [List.length_cons] at this
      omega
    split
    · next hl =>
      refine Or.inl ⟨_, _, rfl, ?_⟩
      have := List.length_drop (decode_uint 0 input).1 r
      omega
    · next hl => exact Or.inr (Or.inr rfl)
  · next heq => exact Or.inr (Or.inl rfl)

theorem decode_benint_cases (rest : List Nat) :
    (∃ v r, decode_benint (105 :: rest) = DRes.ok (BenObject.I v) r ∧
      r.length < (105 :: rest).length) ∨
    decode_benint (105 :: rest) = DRes.err DecodeError.malformedInteger := by
  have hs := skip_if_match_length 45 rest
  have hu := decode_uint_length (skip_if_match 45 rest).2 0
  simp only [decode_benint, if_true]
  split
  · next r heq =>
    have hin := skip_if_match_true heq
    refine Or.inl ⟨_, _, rfl, ?_⟩
    have := congrArg List.length hin
    simp only [List.length_cons] at *
    omega
  · next heq => exact Or.inr rfl

/-! ## Result sanity by induction on fuel: the decoder never panics and
never produces the container-terminator errors -/

theorem decoder_good : ∀ fuel : Nat,
    (∀ input, GoodRes (decode_benobject fuel input)) ∧
    (∀ rest, GoodRes (decode_bendict fuel (100 :: rest))) ∧
    (∀ rest, GoodRes (decode_benlist fuel (108 :: rest))) ∧
    (∀ hash input, GoodRes (dict_loop fuel hash input)) ∧
    (∀ vec input, GoodRes (list_loop fuel vec input)) := by
  intro fuel
  induction fuel with
  | zero =>
    exact ⟨fun _ => good_oom, fun _ => good_oom, fun _ => good_oom,
      fun _ _ => good_oom, fun _ _ => good_oom⟩
  | succ f ih =>
    obtain ⟨ihobj, ihdict, ihlist, ihdl, ihll⟩ := ih
    refine ⟨?_, ?_, ?_, ?_, ?_⟩
    · intro input
      cases input with
      | nil => exact good_err _ (by decide) (by decide)
      | cons c rest =>
        simp only [decode_benobject]
        by_cases h100 : c = 100
        · rw [if_pos h100, h100]
          exact ihdict rest
        · rw [if_neg h100]
          by_cases h105 : c = 105
          · rw [if_pos h105, h105]
            rcases decode_benint_cases rest with ⟨v, r, heq, _⟩ | heq
            · rw [heq]; exact good_ok _ _
            · rw [heq]; exact good_err _ (by decide) (by decide)
          · rw [if_neg h105]
            by_cases h108 : c = 108
            · rw [if_pos h108, h108]
              exact ihlist rest
            · rw [if_neg h108]
              rcases decode_benstring_cases (c :: rest) with
                ⟨s, r, heq, _⟩ | heq | heq
              · rw [heq]; exact good_ok _ _
              · rw [heq]; exact good_err _ (by decide) (by decide)
              · rw [heq]; exact good_err _ (by decide) (by decide)
    · intro rest
      simp only [decode_bendict, if_true]
      exact ihdl [] rest
    · intro rest
      simp only [decode_benlist, if_true]
      exact ihll [] rest
    · intro hash input
      simp only [dict_loop]
      by_cases hh : input.head? = some 101
      · rw [if_pos hh]
        obtain ⟨t, rfl⟩ : ∃ t, input = 101 :: t := by
          cases input with
          | nil => simp at hh
          | cons a t =>
            simp only [List.head?_cons, Option.some.injEq] at hh
            exact ⟨t, by rw [hh]⟩
        rw [skip_if_match_cons_self]
        exact good_ok _ _
      · rw [if_neg hh]
        rcases decode_benstring_cases input with ⟨s, r1, heq, _⟩ | heq | heq
        · simp only [heq]
          cases hobj : decode_benobject f r1 with
          | ok v r2 => exact ihdl (hmInsert s v hash) r2
          | err e =>
            have h := ihobj r1
            rw [hobj] at h
            exact h
          | crash =>
            have h := ihobj r1
            rw [hobj] at h
            exact h
          | oom => exact good_oom
        · simp only [heq]
          exact good_err _ (by decide) (by decide)
        · simp only [heq]
          exact good_err _ (by decide) (by decide)
    · intro vec input
      simp only [list_loop]
      by_cases hh : input.head? = some 101
      · rw [if_pos hh]
        obtain ⟨t, rfl⟩ : ∃ t, input = 101 :: t := by
          cases input with
          | nil => simp at hh
          | cons a t =>
            simp only [List.head?_cons, Option.some.injEq] at hh
            exact ⟨t, by rw [hh]⟩
        rw [skip_if_match_cons_self]
        exact good_ok _ _
      · rw [if_neg hh]
        cases hobj : decode_benobject f input with
        | ok v r => exact ihll (vec ++ [v]) r
        | err e =>
          have h := ihobj input
          rw [hobj] at h
          exact h
        | crash =>
          have h := ihobj input
          rw [hobj] at h
          exact h
        | oom => exact good_oom

/-! ## Consumption: every successful parse consumes at least one byte -/

theorem decoder_consumes : ∀ fuel : Nat,
    (∀ input o r, decode_benobject fuel input = DRes.ok o r →
      r.length < input.length) ∧
    (∀ input o r, decode_bendict fuel input = DRes.ok o r →
      r.length < input.length) ∧
    (∀ input o r, decode_benlist fuel input = DRes.ok o r →
      r.length < input.length) ∧
    (∀ hash input o r, dict_loop fuel hash input = DRes.ok o r →
      r.length < input.length) ∧
    (∀ vec input o r, list_loop fuel vec input = DRes.ok o r →
      r.length < input.length) := by
  intro fuel
  induction fuel with
  | zero =>
    exact ⟨fun _ _ _ h => DRes.noConfusion h, fun _ _ _ h => DRes.noConfusion h,
      fun _ _ _ h => DRes.noConfusion h, fun _ _ _ _ h => DRes.noConfusion h,
      fun _ _ _ _ h => DRes.noConfusion h⟩
  | succ f ih =>
    obtain ⟨ihobj, ihdict, ihlist, ihdl, ihll⟩ := ih
    refine ⟨?_, ?_, ?_, ?_, ?_⟩
    · intro input o r h
      cases input with
      | nil => simp [decode_benobject] at h
      | cons c rest =>
        simp only [decode_benobject] at h
        by_cases h100 : c = 100
        · rw [if_pos h100] at h
          exact ihdict _ _ _ h
        · rw [if_neg h100] at h
          by_cases h105 : c = 105
          · rw [if_pos h105, h105] at h
            rcases decode_benint_cases rest with ⟨v, r', heq, hlt⟩ | heq
            · rw [heq] at h
              injection h with h1 h2
              rw [h105, ← h2]
              exact hlt
            · rw [heq] at h
              exact DRes.noConfusion h
          · rw [if_neg h105] at h
            by_cases h108 : c = 108
            · rw [if_pos h108] at h
              exact ihlist _ _ _ h
            · rw [if_neg h108] at h
              rcases decode_benstring_cases (c :: rest) with
                ⟨s, r', heq, hlt⟩ | heq | heq
              · rw [heq] at h
                injection h with h1 h2
                rw [← h2]
                exact hlt
              · rw [heq] at h
                exact DRes.noConfusion h
              · rw [heq] at h
                exact DRes.noConfusion h
    · intro input o r h
      cases input with
      | nil => simp [decode_bendict] at h
      | cons c rest =>
        simp only [decode_bendict] at h
        by_cases h100 : c = 100
        · rw [if_pos h100] at h
          have := ihdl _ _ _ _ h
          simp only [List.length_cons]
          omega
        · rw [if_neg h100] at h
          exact DRes.noConfusion h
    · intro input o r h
      cases input with
      | nil => simp [decode_benlist] at h
      | cons c rest =>
        simp only [decode_benlist] at h
        by_cases h108 : c = 108
        · rw [if_pos h108] at h
          have := ihll _ _ _ _ h
          simp only [List.length_cons]
          omega
        · rw [if_neg h108] at h
          exact DRes.noConfusion h
    · intro hash input o r h
      simp only [dict_loop] at h
      by_cases hh : input.head? = some 101
      · rw [if_pos hh] at h
        obtain ⟨t, rfl⟩ : ∃ t, input = 101 :: t := by
          cases input with
          | nil => simp at hh
          | cons a t =>
            simp only [List.head?_cons, Option.some.injEq] at hh
            exact ⟨t, by rw [hh]⟩
        rw [skip_if_match_cons_self] at h
        injection h with h1 h2
        rw [← h2]
        simp
      · rw [if_neg hh] at h
        rcases decode_benstring_cases input with ⟨s, r1, heq, hlt1⟩ | heq | heq
        · simp only [heq] at h
          revert h
          cases hobj : decode_benobject f r1 with
          | ok v r2 =>
            intro h
            have hlt2 := ihobj _ _ _ hobj
            have hlt3 := ihdl _ _ _ _ h
            omega
          | err e => intro h; exact DRes.noConfusion h
          | crash => intro h; exact DRes.noConfusion h
          | oom => intro h; exact DRes.noConfusion h
        · simp only [heq] at h
          exact DRes.noConfusion h
        · simp only [heq] at h
          exact DRes.noConfusion h
    · intro vec input o r h
      simp only [list_loop] at h
      by_cases hh : input.head? = some 101
      · rw [if_pos hh] at h
        obtain ⟨t, rfl⟩ : ∃ t, input = 101 :: t := by
          cases input with
          | nil => simp at hh
          | cons a t =>
            simp only [List.head?_cons, Option.some.injEq] at hh
            exact ⟨t, by rw [hh]⟩
        rw [skip_if_match_cons_self] at h
        injection h with h1 h2
        rw [← h2]
        simp
      · rw [if_neg hh] at h
        revert h
        cases hobj : decode_benobject f input with
        | ok v r1 =>
          intro h
          have hlt1 := ihobj _ _ _ hobj
          have hlt2 := ihll _ _ _ _ h
          omega
        | err e => intro h; exact DRes.noConfusion h
        | crash => intro h; exact DRes.noConfusion h
        | oom => intro h; exact DRes.noConfusion h

/-! ## Totality: fuel linear in the input length never runs out -/

theorem decoder_total : ∀ fuel : Nat,
    (∀ input : List Nat, 3 * input.length + 1 ≤ fuel →
      decode_benobject fuel input ≠ DRes.oom) ∧
    (∀ input : List Nat, 1 ≤ fuel → 3 * input.length ≤ fuel →
      decode_bendict fuel input ≠ DRes.oom) ∧
    (∀ input : List Nat, 1 ≤ fuel → 3 * input.length ≤ fuel →
      decode_benlist fuel input ≠ DRes.oom) ∧
    (∀ (hash : List (List Nat × BenObject)) (input : List Nat),
      3 * input.length + 2 ≤ fuel → dict_loop fuel hash input ≠ DRes.oom) ∧
    (∀ (vec : List BenObject) (input : List Nat),
      3 * input.length + 2 ≤ fuel → list_loop fuel vec input ≠ DRes.oom) := by
  intro fuel
  induction fuel with
  | zero =>
    refine ⟨fun input hf => absurd hf (by omega),
      fun input hf _ => absurd hf (by omega),
      fun input hf _ => absurd hf (by omega),
      fun hash input hf => absurd hf (by omega),
      fun vec input hf => absurd hf (by omega)⟩
  | succ f ih =>
    obtain ⟨ihobj, ihdict, ihlist, ihdl, ihll⟩ := ih
    refine ⟨?_, ?_, ?_, ?_, ?_⟩
    · intro input hf
      cases input with
      | nil => simp [decode_benobject]
      | cons c rest =>
        simp only [List.length_cons] at hf
        simp only [decode_benobject]
        by_cases h100 : c = 100
        · rw [if_pos h100]
          exact ihdict _ (by omega) (by simp only [List.length_cons]; omega)
        · rw [if_neg h100]
          by_cases h105 : c = 105
          · rw [if_pos h105, h105]
            rcases decode_benint_cases rest with ⟨v, r, heq, _⟩ | heq <;>
              rw [heq] <;> exact fun h => DRes.noConfusion h
          · rw [if_neg h105]
            by_cases h108 : c = 108
            · rw [if_pos h108]
              exact ihlist _ (by omega) (by simp only [List.length_cons]; omega)
            · rw [if_neg h108]
              rcases decode_benstring_cases (c :: rest) with
                ⟨s, r, heq, _⟩ | heq | heq <;>
                rw [heq] <;> exact fun h => DRes.noConfusion h
    · intro input h1 hf
      cases input with
      | nil => simp [decode_bendict]
      | cons c rest =>
        simp only [List.length_cons] at hf
        simp only [decode_bendict]
        by_cases h100 : c = 100
        · rw [if_pos h100]
          exact ihdl [] rest (by omega)
        · rw [if_neg h100]
          exact fun h => DRes.noConfusion h
    · intro input h1 hf
      cases input with
      | nil => simp [decode_benlist]
      | cons c rest =>
        simp only [List.length_cons] at hf
        simp only [decode_benlist]
        by_cases h108 : c = 108
        · rw [if_pos h108]
          exact ihll [] rest (by omega)
        · rw [if_neg h108]
          exact fun h => DRes.noConfusion h
    · intro hash input hf
      simp only [dict_loop]
      by_cases hh : input.head? = some 101
      · rw [if_pos hh]
        obtain ⟨t, rfl⟩ : ∃ t, input = 101 :: t := by
          cases input with
          | nil => simp at hh
          | cons a t =>
            simp only [List.head?_cons, Option.some.injEq] at hh
            exact ⟨t, by rw [hh]⟩
        rw [skip_if_match_cons_self]
        exact fun h => DRes.noConfusion h
      · rw [if_neg hh]
        rcases decode_benstring_cases input with ⟨s, r1, heq, hlt1⟩ | heq | heq
        · simp only [heq]
          cases hobj : decode_benobject f r1 with
          | ok v r2 =>
            have hlt2 := (decoder_consumes f).1 _ _ _ hobj
            exact ihdl (hmInsert s v hash) r2 (by omega)
          | err e => exact fun h => DRes.noConfusion h
          | crash => exact fun h => DRes.noConfusion h
          | oom =>
            exact absurd hobj (ihobj r1 (by omega))
        · simp only [heq]
          exact fun h => DRes.noConfusion h
        · simp only [heq]
          exact fun h => DRes.noConfusion h
    · intro vec input hf
      simp only [list_loop]
      by_cases hh : input.head? = some 101
      · rw [if_pos hh]
        obtain ⟨t, rfl⟩ : ∃ t, input = 101 :: t := by
          cases input with
          | nil => simp at hh
          | cons a t =>
            simp only [List.head?_cons, Option.some.injEq] at hh
            exact ⟨t, by rw [hh]⟩
        rw [skip_if_match_cons_self]
        exact fun h => DRes.noConfusion h
      · rw [if_neg hh]
        cases hobj : decode_benobject f input with
        | ok v r1 =>
          have hlt1 := (decoder_consumes f).1 _ _ _ hobj
          exact ihll (vec ++ [v]) r1 (by omega)
        | err e => exact fun h => DRes.noConfusion h
        | crash => exact fun h => DRes.noConfusion h
        | oom =>
          exact absurd hobj (ihobj input (by omega))

/-! ## Claim theorems settled by the fuel inductions -/

/-- Claim C2 is false as stated: at a key position holding a non-string
object encoding ("di1e1:aee", an integer at the key slot), the decoder
returns the recoverable "expected ':'" parse error through the normal
result channel; it does not abort. -/
theorem claim2_counterexample :
    decode [100, 105, 49, 101, 49, 58, 97, 101, 101] =
      DRes.err DecodeError.malformedString ∧
      decode [100, 105, 49, 101, 49, 58, 97, 101, 101] ≠ DRes.crash :=
  ⟨rfl, fun h => DRes.noConfusion h⟩

/-- Claim C2 (corrected): dictionary keys are parsed with the string rule
directly, so a non-string object encoding at a key position surfaces as
the recoverable string-rule error, and the panic guarding the key match
is unreachable — the decoder never aborts, on any input and any fuel. -/
theorem claim2_amended :
    (∀ fuel input, decode_benobject fuel input ≠ DRes.crash) ∧
      (∀ bs, decode bs ≠ DRes.crash) ∧
      decode [100, 105, 49, 101, 49, 58, 97, 101, 101] =
        DRes.err DecodeError.malformedString :=
  ⟨fun fuel input => ((decoder_good fuel).1 input).1,
    fun bs => ((decoder_good (3 * bs.length + 1)).1 bs).1, rfl⟩

/-- Claim C9 is false as stated on its exhaustion clause: input "d" is
exhausted inside a dictionary, yet the error is the string rule's
"expected ':'", not ObjectNotFound. -/
theorem claim9_counterexample :
    decode [100] = DRes.err DecodeError.malformedString ∧
      decode [100] ≠ DRes.err DecodeError.objectNotFound :=
  ⟨rfl, fun h => DecodeError.noConfusion (DRes.err.inj h)⟩

/-- Claim C9 (corrected): no input and no fuel ever produces the
list-terminator or dict-terminator error (the loops exit only when the
peeked byte is `'e'`, so the terminator check always succeeds); premature
exhaustion inside a list surfaces as ObjectNotFound from the recursive
call, while inside a dict at a key position it surfaces as the string
rule's "expected ':'" error. -/
theorem claim9_amended :
    (∀ fuel input,
      decode_benobject fuel input ≠ DRes.err DecodeError.malformedList ∧
      decode_benobject fuel input ≠ DRes.err DecodeError.malformedDict) ∧
      decode [108] = DRes.err DecodeError.objectNotFound ∧
      decode [100] = DRes.err DecodeError.malformedString :=
  ⟨fun fuel input =>
    ⟨((decoder_good fuel).1 input).2.1, ((decoder_good fuel).1 input).2.2⟩,
    rfl, rfl⟩

/-- Claim C10: the decoder terminates on every finite input — fuel linear
in the input length never runs out, because every loop iteration and
recursive descent consumes input. -/
theorem claim10_termination (bs : List Nat) (fuel : Nat)
    (h : 3 * bs.length + 1 ≤ fuel) :
    decode_benobject fuel bs ≠ DRes.oom ∧ decode bs ≠ DRes.oom :=
  ⟨(decoder_total fuel).1 bs h,
    (decoder_total (3 * bs.length + 1)).1 bs le_rfl⟩

theorem claim10_witness :
    3 * [108, 49, 58, 97, 101].length + 1 ≤ 16 ∧
      decode_benobject 16 [108, 49, 58, 97, 101] ≠ DRes.oom ∧
      decode [108, 49, 58, 97, 101] ≠ DRes.oom :=
  ⟨by decide, (claim10_termination [108, 49, 58, 97, 101] 16 (by decide)).1,
    (claim10_termination [108, 49, 58, 97, 101] 16 (by decide)).2⟩

end Bencode
